import Mathlib

/-!
Verification of the grpc-json server (package grpcj) against its design
specification.  The development shallowly embeds the Go source:

* the decimal text conversions used for map keys
  (fmt "%v" formatting and strconv parsing);
* the non-proto JSON codec of jsonpb (marshalNonProtoField /
  decodeNonProtoField) together with a model of the proto-message codec;
* the method registry and ServeMux registration performed by Serve;
* the middleware chain (applyMiddlewareTo / reverse);
* the health-check status loop;
* the request handler grpcjHandler and the BasicAuth middleware.
-/

namespace GrpcJson

/-! ## Decimal numerals

Model of the decimal text conversions used on map keys.  The encoder
stringifies keys with fmt.Sprintf("%v", k); the decoder parses them with
the grpc-gateway runtime converters, which delegate to strconv.ParseInt,
strconv.ParseUint and strconv.ParseBool.  Only the plain decimal forms are
modelled (strconv base-0 hexadecimal, octal and binary prefixes and digit
underscores never occur in keys produced by the encoder, and integers are
modelled as unbounded, so the 32/64-bit range checks are not modelled). -/

/-- Value of a decimal digit character, none for a non-digit. -/
def charVal (c : Char) : Option Nat :=
  if 48 ≤ c.toNat && c.toNat ≤ 57 then some (c.toNat - 48) else none

/-- Decimal digit list (most significant first) of a natural number,
as produced by fmt.Sprintf("%v", n) for an unsigned value. -/
def natToStrAux (n : Nat) : List Char :=
  if _h : n < 10 then [Nat.digitChar n]
  else natToStrAux (n / 10) ++ [Nat.digitChar (n % 10)]
  termination_by n
  decreasing_by
    exact Nat.div_lt_self (Nat.pos_of_ne_zero (by omega)) (by omega)

/-- Accumulator loop of decimal parsing (strconv, base 10 digits). -/
def parseNatAux : List Char → Nat → Option Nat
  | [], acc => some acc
  | c :: cs, acc =>
    match charVal c with
    | some d => parseNatAux cs (acc * 10 + d)
    | none => none

/-- fmt.Sprintf("%v", i) for a signed integer. -/
def intToStr (i : Int) : String :=
  if i < 0 then String.mk ('-' :: natToStrAux i.natAbs)
  else String.mk (natToStrAux i.natAbs)

/-- strconv.ParseInt on plain decimal text: an optional sign followed by a
nonempty digit string. -/
def parseInt (s : String) : Option Int :=
  match s.data with
  | [] => none
  | c :: rest =>
    if c = '-' then
      match rest with
      | [] => none
      | _ :: _ => (parseNatAux rest 0).map (fun n => -(n : Int))
    else if c = '+' then
      match rest with
      | [] => none
      | _ :: _ => (parseNatAux rest 0).map (fun n => (n : Int))
    else (parseNatAux s.data 0).map (fun n => (n : Int))

/-- strconv.ParseBool: the exact set of accepted spellings. -/
def parseBool (s : String) : Option Bool :=
  if s = "1" ∨ s = "t" ∨ s = "T" ∨ s = "TRUE" ∨ s = "true" ∨ s = "True" then
    some true
  else if s = "0" ∨ s = "f" ∨ s = "F" ∨ s = "FALSE" ∨ s = "false" ∨ s = "False" then
    some false
  else none

/-! ## JSON documents and structured-message values

Shallow embedding of the structured-message codec.  JSON documents carry
integer numerals only (the codec's 64-bit integers; floating-point scalars
are outside the embedding).  A structured-message value is a tree of
scalars, nested messages, repeated fields, keyed maps and enum ordinals,
mirroring the data model of the request/response messages. -/

/-- A JSON document.  Numbers are modelled as (unbounded) integers. -/
inductive Jx where
  | jnull
  | jbool (b : Bool)
  | jnum (n : Int)
  | jstr (s : String)
  | jarr (elems : List Jx)
  | jobj (members : List (String × Jx))

/-- The key kinds of keyed maps covered by the typed value model. -/
inductive KeyTy where
  | kstr
  | kbool
  | kint
deriving DecidableEq

/-- A concrete map key. -/
inductive MKey where
  | ks (s : String)
  | kb (b : Bool)
  | ki (n : Int)
deriving DecidableEq

mutual
/-- A structured-message value: the tree of field values held by a request
or response message instance. -/
inductive Value where
  | vstr (s : String)
  | vbool (b : Bool)
  | vint (n : Int)
  | venum (ord : Int)
  | vmsg (fields : Fields)
  | vrep (elems : Values)
  | vmap (entries : Entries)

/-- The named fields of a message value, in declared order. -/
inductive Fields where
  | nil
  | cons (name : String) (v : Value) (rest : Fields)

/-- The elements of a repeated field. -/
inductive Values where
  | nil
  | cons (v : Value) (rest : Values)

/-- The entries of a keyed map. -/
inductive Entries where
  | nil
  | cons (k : MKey) (v : Value) (rest : Entries)
end

mutual
/-- The runtime type descriptor driving the decoder: the destination
type of a decode operation. -/
inductive Ty where
  | tstr
  | tbool
  | tint
  | tenum
  | tmsg (fields : TFields)
  | trep (elem : Ty)
  | tmap (key : KeyTy) (val : Ty)

/-- The declared fields of a message type, in declared order. -/
inductive TFields where
  | nil
  | cons (name : String) (t : Ty) (rest : TFields)
end

/-- Go %q-style quotation of a string inside an error message (escape
sequences are not modelled). -/
def quoteStr (s : String) : String := "\"" ++ s ++ "\""

/-- String form of a map key, as emitted by marshalNonProtoField via
fmt.Sprintf("%v", k.Interface()). -/
def keyStr : MKey → String
  | .ks s => s
  | .kb true => "true"
  | .kb false => "false"
  | .ki n => intToStr n

/-- Key conversion applied by decodeNonProtoField through the conv
function selected from convFromType: the identity for string keys
(runtime.String), strconv.ParseBool for bool keys (runtime.Bool) and
strconv.ParseInt for integer keys (runtime.Int64). -/
def parseKey : KeyTy → String → Except String MKey
  | .kstr, s => .ok (.ks s)
  | .kbool, s =>
    match parseBool s with
    | some b => .ok (.kb b)
    | none => .error ("strconv.ParseBool: parsing " ++ quoteStr s ++ ": invalid syntax")
  | .kint, s =>
    match parseInt s with
    | some n => .ok (.ki n)
    | none => .error ("strconv.ParseInt: parsing " ++ quoteStr s ++ ": invalid syntax")

/-- Does a concrete key have the given key kind? -/
def keyMatches : KeyTy → MKey → Bool
  | .kstr, .ks _ => true
  | .kbool, .kb _ => true
  | .kint, .ki _ => true
  | _, _ => false

/-- The symbolic name emitted for an enum when EnumsAsInts is off.  The
generated String method of an enum type is external generated code; it is
modelled as the decimal text of the ordinal. -/
def enumName (ord : Int) : String := intToStr ord

/-- The wrap-around of the int32 conversion applied by
decodeNonProtoField to a numeric enum representation. -/
def wrap32 (n : Int) : Int := (n + 2 ^ 31) % 2 ^ 32 - 2 ^ 31

mutual
/-- Encode operation of the codec, at the package's default configuration
(EmitDefaults on, OrigName on, Int64AsString off) except for the explicit
EnumsAsInts flag read by marshalNonProtoField.  Scalars, maps and enums
follow marshalNonProtoField; the message and repeated cases model the
proto-message marshaler (jsonpb.Marshaler), which is not part of this
repository's sources, from the spec: every declared field is emitted in
declared order under its original name. -/
def encode (enumsAsInts : Bool) : Value → Jx
  | .vstr s => .jstr s
  | .vbool b => .jbool b
  | .vint n => .jnum n
  | .venum ord => if enumsAsInts then .jnum ord else .jstr (enumName ord)
  | .vmsg fs => .jobj (encodeFields enumsAsInts fs)
  | .vrep xs => .jarr (encodeList enumsAsInts xs)
  | .vmap es => .jobj (encodeEntries enumsAsInts es)

/-- Encode the fields of a message, in declared order. -/
def encodeFields (enumsAsInts : Bool) : Fields → List (String × Jx)
  | .nil => []
  | .cons n v rest => (n, encode enumsAsInts v) :: encodeFields enumsAsInts rest

/-- Encode the elements of a repeated field. -/
def encodeList (enumsAsInts : Bool) : Values → List Jx
  | .nil => []
  | .cons v rest => encode enumsAsInts v :: encodeList enumsAsInts rest

/-- Encode the entries of a keyed map: the JSON object member name is the
fmt.Sprintf("%v") form of the key (marshalNonProtoField's map branch). -/
def encodeEntries (enumsAsInts : Bool) : Entries → List (String × Jx)
  | .nil => []
  | .cons k v rest => (keyStr k, encode enumsAsInts v) :: encodeEntries enumsAsInts rest
end

mutual
/-- Decode operation of the codec against a destination type descriptor.
The keyed-map branch and the enum branch follow decodeNonProtoField: a map
destination decodes a JSON object by converting every member name through
the key conversion and decoding every member value recursively; an enum
destination accepts only a JSON number (converted through int32) and
rejects a symbolic string with a descriptive error.  The message case
models the proto-message unmarshaler (jsonpb.Unmarshaler), which is not
part of this repository's sources, from the spec: a JSON object is decoded
field by field against the message's declared fields.  Scalars decode
through the general-purpose JSON decoder: the document must match the
destination kind. -/
def decode : Ty → Jx → Except String Value
  | .tstr, .jstr s => .ok (.vstr s)
  | .tstr, _ => .error "json: cannot unmarshal value into Go value of type string"
  | .tbool, .jbool b => .ok (.vbool b)
  | .tbool, _ => .error "json: cannot unmarshal value into Go value of type bool"
  | .tint, .jnum n => .ok (.vint n)
  | .tint, _ => .error "json: cannot unmarshal value into Go value of type int64"
  | .tenum, .jstr s =>
    .error ("unmarshaling of symbolic enum " ++ quoteStr s ++ " not supported")
  | .tenum, .jnum n => .ok (.venum (wrap32 n))
  | .tenum, _ => .error "cannot assign value into Go type of enum"
  | .tmsg fts, .jobj kvs =>
    match decodeFields fts kvs with
    | .error e => .error e
    | .ok fs => .ok (.vmsg fs)
  | .tmsg _, _ => .error "json: cannot unmarshal value into Go value of type struct"
  | .trep t, .jarr xs =>
    match decodeList t xs with
    | .error e => .error e
    | .ok vs => .ok (.vrep vs)
  | .trep _, _ => .error "json: cannot unmarshal value into Go value of type slice"
  | .tmap kt vt, .jobj kvs =>
    match decodeEntries kt vt kvs with
    | .error e => .error e
    | .ok es => .ok (.vmap es)
  | .tmap _ _, _ => .error "json: cannot unmarshal value into Go value of type map"
  termination_by t j => sizeOf t + sizeOf j

/-- Decode the members of a JSON object against the declared fields of a
message type, field by field in declared order. -/
def decodeFields : TFields → List (String × Jx) → Except String Fields
  | .nil, [] => .ok .nil
  | .nil, (m, _) :: _ => .error ("unknown field " ++ quoteStr m)
  | .cons n _ _, [] => .error ("missing field " ++ quoteStr n)
  | .cons n t rest, (m, jv) :: jrest =>
    if n = m then
      match decode t jv with
      | .error e => .error e
      | .ok v =>
        match decodeFields rest jrest with
        | .error e => .error e
        | .ok vs => .ok (.cons n v vs)
    else .error ("unknown field " ++ quoteStr m)
  termination_by fts kvs => sizeOf fts + sizeOf kvs

/-- Decode the elements of a JSON array against the element type of a
repeated field. -/
def decodeList : Ty → List Jx → Except String Values
  | _, [] => .ok .nil
  | t, x :: xs =>
    match decode t x with
    | .error e => .error e
    | .ok v =>
      match decodeList t xs with
      | .error e => .error e
      | .ok vs => .ok (.cons v vs)
  termination_by t xs => sizeOf t + sizeOf xs

/-- Decode the members of a JSON object into map entries: every member
name goes through the key conversion, every member value is decoded
recursively (the map branch of decodeNonProtoField). -/
def decodeEntries : KeyTy → Ty → List (String × Jx) → Except String Entries
  | _, _, [] => .ok .nil
  | kt, vt, (s, jv) :: rest =>
    match parseKey kt s with
    | .error e => .error e
    | .ok k =>
      match decode vt jv with
      | .error e => .error e
      | .ok v =>
        match decodeEntries kt vt rest with
        | .error e => .error e
        | .ok es => .ok (.cons k v es)
  termination_by _kt vt kvs => sizeOf vt + sizeOf kvs
end

mutual
/-- A value is composed of the four claim-covered kinds, matching a type
descriptor: scalars, nested messages, repeated fields and keyed maps.
Enum values are deliberately not covered (the round-trip law excludes
enums in symbolic form). -/
def wellTyped : Ty → Value → Bool
  | .tstr, .vstr _ => true
  | .tbool, .vbool _ => true
  | .tint, .vint _ => true
  | .tmsg fts, .vmsg fs => wellTypedFields fts fs
  | .trep t, .vrep xs => wellTypedList t xs
  | .tmap kt vt, .vmap es => wellTypedEntries kt vt es
  | _, _ => false

/-- Fields match the declared fields name-for-name in declared order. -/
def wellTypedFields : TFields → Fields → Bool
  | .nil, .nil => true
  | .cons n t tr, .cons m v vr => n == m && wellTyped t v && wellTypedFields tr vr
  | _, _ => false

/-- All elements of a repeated field match the element type. -/
def wellTypedList (t : Ty) : Values → Bool
  | .nil => true
  | .cons v rest => wellTyped t v && wellTypedList t rest

/-- All map entries match the declared key kind and value type. -/
def wellTypedEntries (kt : KeyTy) (vt : Ty) : Entries → Bool
  | .nil => true
  | .cons k v rest => keyMatches kt k && wellTyped vt v && wellTypedEntries kt vt rest
end

/-! ## Map-key kinds and convFromType

The map branch of decodeNonProtoField selects a key-conversion function
from the convFromType table, keyed by the reflect.Kind of the map's key
type; a kind with no entry fails with "unsupported type of map field key".
The table holds exactly: String, Bool, Float64, Float32, Int64, Int32,
Uint64, Uint32 and Slice (byte slices). -/

/-- The reflect.Kind values relevant to map keys. -/
inductive GoKind where
  | gbool
  | gint
  | gint8
  | gint16
  | gint32
  | gint64
  | guint
  | guint8
  | guint16
  | guint32
  | guint64
  | guintptr
  | gfloat32
  | gfloat64
  | gstring
  | gslice
  | gstruct
  | gptr
deriving DecidableEq

/-- reflect.Kind.String() for the modelled kinds; for an unnamed
primitive type this is also the string form fmt's %v prints for the type
itself. -/
def kindName : GoKind → String
  | .gbool => "bool"
  | .gint => "int"
  | .gint8 => "int8"
  | .gint16 => "int16"
  | .gint32 => "int32"
  | .gint64 => "int64"
  | .guint => "uint"
  | .guint8 => "uint8"
  | .guint16 => "uint16"
  | .guint32 => "uint32"
  | .guint64 => "uint64"
  | .guintptr => "uintptr"
  | .gfloat32 => "float32"
  | .gfloat64 => "float64"
  | .gstring => "string"
  | .gslice => "slice"
  | .gstruct => "struct"
  | .gptr => "ptr"

/-- The shape of a (receiver-bound) method's reflected type, as far as
the fixed handler shape is concerned. -/
structure MethodSig where
  numIn : Nat
  numOut : Nat
  in0IsContext : Bool
  in1IsPtrMessage : Bool
  out0IsPtrMessage : Bool
  out1IsError : Bool
deriving DecidableEq

/-- Does a method signature match (context, *Request) to (*Response, error)? -/
def signatureMatches (s : MethodSig) : Bool :=
  s.numIn == 2 && s.numOut == 2 && s.in0IsContext && s.in1IsPtrMessage &&
    s.out0IsPtrMessage && s.out1IsError

/-- serverOpts.isAllowedMethod: an allow-list with fewer than one entry
allows every method, otherwise only a listed name is allowed. -/
def isAllowedMethod (allowedMethods : List String) (methodName : String) : Bool :=
  if allowedMethods.length < 1 then true
  else allowedMethods.contains methodName

/-- The multiplexer's registered patterns, each with the name of the
method its handler invokes. -/
abbrev Mux := List (String × String)

/-- http.ServeMux.HandleFunc: registering an already-registered pattern
panics with "http: multiple registrations for" the pattern. -/
def muxHandleFunc (mux : Mux) (pattern : String) (methodName : String) :
    Except String Mux :=
  if (mux.map Prod.fst).contains pattern then
    .error ("http: multiple registrations for " ++ pattern)
  else .ok (mux ++ [(pattern, methodName)])

/-- The discovery loop of Serve: every reflected method passing the
allow-list is registered under "/" ++ name — the signature is never
examined. -/
def registerMethods : Mux → List (String × MethodSig) → List String → Except String Mux
  | mux, [], _ => .ok mux
  | mux, (methodName, _sig) :: rest, allowed =>
    if isAllowedMethod allowed methodName then
      match muxHandleFunc mux ("/" ++ methodName) methodName with
      | .error e => .error e
      | .ok m => registerMethods m rest allowed
    else registerMethods mux rest allowed

/-- The explicit endpoint-map loop of Serve: every entry passing the
allow-list is registered under its own endpoint path. -/
def registerEndpoints : Mux → List (String × String) → List String → Except String Mux
  | mux, [], _ => .ok mux
  | mux, (endpoint, methodName) :: rest, allowed =>
    if isAllowedMethod allowed methodName then
      match muxHandleFunc mux endpoint methodName with
      | .error e => .error e
      | .ok m => registerEndpoints m rest allowed
    else registerEndpoints mux rest allowed

/-- The registration phase of Serve: the discovery loop over the service
instance's methods, then the loop over the explicit endpoint map. -/
def serveRegister (methods : List (String × MethodSig))
    (endpointMap : List (String × String)) (allowed : List String) :
    Except String Mux :=
  match registerMethods [] methods allowed with
  | .error e => .error e
  | .ok m => registerEndpoints m endpointMap allowed

/-- Exact-path route lookup on the multiplexer; none is the not-found
(HTTP 404) outcome. -/
def muxLookup : Mux → String → Option String
  | [], _ => none
  | (pattern, methodName) :: rest, path =>
    if pattern = path then some methodName else muxLookup rest path

/-! ## Signature samples -/

/-- A signature that does not match the fixed handler shape. -/
def badSignature : MethodSig := ⟨1, 1, false, false, false, false⟩

/-- A signature matching (context, *Request) to (*Response, error). -/
def okSignature : MethodSig := ⟨2, 2, true, true, true, true⟩

/-! ## Middleware composition -/

/-- applyMiddlewareTo: fold the middleware list over the handler, each
middleware wrapping the handler built so far. -/
def applyMiddlewareTo {H : Type} (handler : H) (middlewareHandlers : List (H → H)) : H :=
  middlewareHandlers.foldl (fun next middlewareHandler => middlewareHandler next) handler

/-- The composition Serve performs: it first reverses the middleware list
in place, then wraps each handler with applyMiddlewareTo. -/
def composeMiddleware {H : Type} (handler : H) (middlewareHandlers : List (H → H)) : H :=
  applyMiddlewareTo handler middlewareHandlers.reverse

/-- A handler instrumented to record the order of observation: it appends
its tag to the trace it is invoked on. -/
abbrev TraceHandler := List Nat → List Nat

/-- A middleware that records its tag, then calls the next handler. -/
def traceMw (tag : Nat) : TraceHandler → TraceHandler :=
  fun next log => next (log ++ [tag])

/-- The innermost handler of the trace model, recording tag 0. -/
def traceBase : TraceHandler := fun log => log ++ [0]

/-! ## HTTP status constants (net/http) -/

def statusOK : Nat := 200
def statusBadRequest : Nat := 400
def statusUnauthorized : Nat := 401
def statusInternalServerError : Nat := 500
def statusNotImplemented : Nat := 501

/-! ## Health-check status -/

/-- One round of the health-probe loop: a probe error sets the shared
status to 500, a nil result sets it back to 200. -/
def healthcheckStep (_healthcheckStatus : Nat) (probeResult : Option String) : Nat :=
  match probeResult with
  | some _ => statusInternalServerError
  | none => statusOK

/-- The shared status after a sequence of probe results, starting from
the initial value http.StatusOK. -/
def healthcheckStatusAfter (probeResults : List (Option String)) : Nat :=
  probeResults.foldl healthcheckStep statusOK

/-- The health endpoint's response: it writes the current status header
and no body. -/
structure HealthResponse where
  status : Nat
  body : String
deriving DecidableEq

/-- The handler registered on the health-check endpoint. -/
def healthcheckHandler (healthcheckStatus : Nat) : HealthResponse :=
  ⟨healthcheckStatus, ""⟩

/-! ## The request handler grpcjHandler -/

/-- An HTTP response as produced by grpcjHandler. -/
structure HttpResponse where
  status : Nat
  contentType : String
  body : String
deriving DecidableEq

/-- http.Error: text/plain content type, the given status code, and the
message followed by a newline as the body. -/
def httpErrorResponse (msg : String) (code : Nat) : HttpResponse :=
  ⟨code, "text/plain; charset=utf-8", msg ++ "\n"⟩

/-- grpcjHandler, parameterized over the collaborating pieces: unmarshal
(the configured jsonpb unmarshaler reading the payload into the allocated
request instance), qsonToJSON (the query-string adapter), methodFunc (the
bound service method: an error result or a response) and marshal (the
configured jsonpb marshaler).  POST decodes the body; GET converts the
raw query then decodes; any other verb is 501 with no body.  A decode
failure is a 400 carrying the decode error text and the method is never
invoked; a method error is a 500 carrying its text; a marshal failure is
a 500 with a generic message; otherwise the marshaled response is written
with the JSON content type. -/
def grpcjHandler {Req Resp : Type} (unmarshal : String → Except String Req)
    (qsonToJSON : String → Except String String)
    (methodFunc : Req → Except String Resp)
    (marshal : Resp → Except String String)
    (verb : String) (body : String) (rawQuery : String) : HttpResponse :=
  let invoke : Req → HttpResponse := fun req =>
    match methodFunc req with
    | .error e => httpErrorResponse e statusInternalServerError
    | .ok resp =>
      match marshal resp with
      | .error _ => httpErrorResponse "An error has occured" statusInternalServerError
      | .ok out => ⟨statusOK, "application/json", out⟩
  if verb = "POST" then
    match unmarshal body with
    | .error e => httpErrorResponse e statusBadRequest
    | .ok req => invoke req
  else if verb = "GET" then
    match qsonToJSON rawQuery with
    | .error e => httpErrorResponse e statusBadRequest
    | .ok parsedJSON =>
      match unmarshal parsedJSON with
      | .error e => httpErrorResponse e statusBadRequest
      | .ok req => invoke req
  else ⟨statusNotImplemented, "", ""⟩

/-! ## BasicAuth middleware -/

/-- The part of an HTTP request BasicAuth inspects: the outcome of
r.BasicAuth(), none when the Authorization header is absent or
malformed. -/
structure AuthRequest where
  basicAuth : Option (String × String)

/-- A response writer: accumulated headers, status code and body. -/
structure ResponseWriter where
  headers : List (String × String)
  status : Nat
  body : String
deriving DecidableEq

/-- Header().Set: replace any value previously set for the key. -/
def headerSet (w : ResponseWriter) (key value : String) : ResponseWriter :=
  ⟨w.headers.filter (fun p => p.1 != key) ++ [(key, value)], w.status, w.body⟩

/-- http.Error against a response writer already holding headers. -/
def httpErrorWrite (w : ResponseWriter) (msg : String) (code : Nat) : ResponseWriter :=
  let w1 := headerSet (headerSet w "Content-Type" "text/plain; charset=utf-8")
    "X-Content-Type-Options" "nosniff"
  ⟨w1.headers, code, w1.body ++ msg ++ "\n"⟩

/-- Is a header with the given key and value present? -/
def hasHeader (w : ResponseWriter) (key value : String) : Bool :=
  w.headers.contains (key, value)

/-- A handler in the BasicAuth model. -/
abbrev AuthHandler := AuthRequest → ResponseWriter → ResponseWriter

/-- The WWW-Authenticate header BasicAuth sets on every response. -/
def wwwAuthenticate : String × String := ("WWW-Authenticate", "Basic realm=\"Restricted\"")

/-- The BasicAuth middleware: set WWW-Authenticate, reject a missing
credential pair with 401 Unauthorized, reject a wrong pair with 401
Unauthorized, and otherwise delegate to the wrapped handler. -/
def basicAuth (username password : String) (next : AuthHandler) : AuthHandler :=
  fun r w =>
    let w1 := headerSet w wwwAuthenticate.1 wwwAuthenticate.2
    match r.basicAuth with
    | none => httpErrorWrite w1 "Unauthorized" statusUnauthorized
    | some (authUsername, authPassword) =>
      if authUsername != username || authPassword != password then
        httpErrorWrite w1 "Unauthorized" statusUnauthorized
      else next r w1

/-! ## Sample data for witnesses -/

/-- A sample message type: an integer field, a repeated string field, a
nested message and an integer-keyed map. -/
def sampleTy : Ty :=
  .tmsg (.cons "num_one" .tint
    (.cons "tags" (.trep .tstr)
      (.cons "nested" (.tmsg (.cons "flag" .tbool .nil))
        (.cons "scores" (.tmap .kint .tint) .nil))))

/-- A sample value of sampleTy. -/
def sampleVal : Value :=
  .vmsg (.cons "num_one" (.vint 1)
    (.cons "tags" (.vrep (.cons (.vstr "a") .nil))
      (.cons "nested" (.vmsg (.cons "flag" (.vbool true) .nil))
        (.cons "scores" (.vmap (.cons (.ki 42) (.vint 7) .nil)) .nil))))

/-- Is an Except result a success? -/
def exceptIsOk {ε α : Type} : Except ε α → Bool
  | .ok _ => true
  | .error _ => false

/-- Is a JSON document a number? -/
def jxIsNum : Jx → Bool
  | .jnum _ => true
  | _ => false

theorem charVal_digitChar (d : Nat) (h : d < 10) :
    charVal (Nat.digitChar d) = some d := by
  interval_cases d <;> decide

theorem natToStrAux_ne_nil (n : Nat) : natToStrAux n ≠ [] := by
  rw [natToStrAux]
  split
  · simp
  · simp

theorem parseNatAux_append (xs ys : List Char) (acc : Nat) :
    parseNatAux (xs ++ ys) acc =
      (parseNatAux xs acc).bind (fun a => parseNatAux ys a) := by
  induction xs generalizing acc with
  | nil => simp [parseNatAux]
  | cons c cs ih =>
    simp only [List.cons_append, parseNatAux]
    cases hc : charVal c with
    | none => simp
    | some d => simp [ih]

theorem parseNatAux_natToStrAux (n : Nat) :
    ∀ acc, parseNatAux (natToStrAux n) acc =
      some (acc * 10 ^ (natToStrAux n).length + n) := by
  induction n using Nat.strong_induction_on with
  | _ n ih =>
    intro acc
    rw [natToStrAux]
    split
    · next h =>
      simp [parseNatAux, charVal_digitChar n h]
    · next h =>
      have hpos : 0 < n := by omega
      have hdiv : n / 10 < n := Nat.div_lt_self hpos (by omega)
      rw [parseNatAux_append]
      rw [ih (n / 10) hdiv acc]
      simp only [Option.some_bind, parseNatAux,
        charVal_digitChar (n % 10) (Nat.mod_lt n (by omega)), List.length_append,
        List.length_cons, List.length_nil, Nat.zero_add]
      congr 1
      rw [pow_succ]
      have hmod : n % 10 + 10 * (n / 10) = n := Nat.mod_add_div n 10
      have e1 : acc * (10 ^ (natToStrAux (n / 10)).length * 10) =
          acc * 10 ^ (natToStrAux (n / 10)).length * 10 := by ring
      rw [e1]
      generalize acc * 10 ^ (natToStrAux (n / 10)).length = A
      omega

theorem natToStrAux_head (n : Nat) :
    ∃ d cs, d < 10 ∧ natToStrAux n = Nat.digitChar d :: cs := by
  induction n using Nat.strong_induction_on with
  | _ n ih =>
    rw [natToStrAux]
    split
    · next h => exact ⟨n, [], h, rfl⟩
    · next h =>
      have hdiv : n / 10 < n := Nat.div_lt_self (by omega) (by omega)
      obtain ⟨d, cs, hd, heq⟩ := ih (n / 10) hdiv
      exact ⟨d, cs ++ [Nat.digitChar (n % 10)], hd, by rw [heq]; rfl⟩

theorem digitChar_ne_sign (d : Nat) (h : d < 10) :
    Nat.digitChar d ≠ '-' ∧ Nat.digitChar d ≠ '+' := by
  interval_cases d <;> exact ⟨by decide, by decide⟩

theorem parseInt_mk_digits (n : Nat) :
    parseInt (String.mk (natToStrAux n)) = some (n : Int) := by
  obtain ⟨d, cs, hd, heq⟩ := natToStrAux_head n
  obtain ⟨h1, h2⟩ := digitChar_ne_sign d hd
  have hdata : (String.mk (natToStrAux n)).data = natToStrAux n := rfl
  simp only [parseInt, hdata, heq]
  simp only [if_neg h1, if_neg h2]
  rw [← heq, parseNatAux_natToStrAux n 0]
  simp

theorem parseInt_mk_neg (n : Nat) :
    parseInt (String.mk ('-' :: natToStrAux n)) = some (-(n : Int)) := by
  have hdata : (String.mk ('-' :: natToStrAux n)).data = '-' :: natToStrAux n := rfl
  simp only [parseInt, hdata]
  cases hx : natToStrAux n with
  | nil => exact absurd hx (natToStrAux_ne_nil n)
  | cons c cs =>
    simp only [if_pos rfl]
    rw [← hx, parseNatAux_natToStrAux n 0]
    simp

theorem parseInt_intToStr (i : Int) : parseInt (intToStr i) = some i := by
  unfold intToStr
  by_cases hneg : i < 0
  · rw [if_pos hneg, parseInt_mk_neg i.natAbs]
    congr 1
    omega
  · rw [if_neg hneg, parseInt_mk_digits i.natAbs]
    congr 1
    omega

/-! ## The round-trip law -/

theorem parseKey_keyStr (kt : KeyTy) (k : MKey) (h : keyMatches kt k = true) :
    parseKey kt (keyStr k) = .ok k := by
  cases kt <;> cases k <;> simp [keyMatches] at h ⊢
  · rfl
  · next b =>
    cases b
    · rfl
    · rfl
  · next n =>
    simp [parseKey, keyStr, parseInt_intToStr n]

mutual
theorem decode_encode :
    ∀ (v : Value) (eai : Bool) (t : Ty), wellTyped t v = true →
      decode t (encode eai v) = .ok v
  | .vstr s, eai, t, h => by
    cases t <;> simp [wellTyped] at h
    simp [encode, decode]
  | .vbool b, eai, t, h => by
    cases t <;> simp [wellTyped] at h
    simp [encode, decode]
  | .vint n, eai, t, h => by
    cases t <;> simp [wellTyped] at h
    simp [encode, decode]
  | .venum o, eai, t, h => by
    cases t <;> simp [wellTyped] at h
  | .vmsg fs, eai, t, h => by
    cases t <;> simp [wellTyped] at h
    next fts =>
    simp [encode, decode, decodeFields_encodeFields fs eai fts h]
  | .vrep xs, eai, t, h => by
    cases t <;> simp [wellTyped] at h
    next t =>
    simp [encode, decode, decodeList_encodeList xs eai t h]
  | .vmap es, eai, t, h => by
    cases t <;> simp [wellTyped] at h
    next kt vt =>
    simp [encode, decode, decodeEntries_encodeEntries es eai kt vt h]

theorem decodeFields_encodeFields :
    ∀ (fs : Fields) (eai : Bool) (fts : TFields), wellTypedFields fts fs = true →
      decodeFields fts (encodeFields eai fs) = .ok fs
  | .nil, eai, fts, h => by
    cases fts <;> simp [wellTypedFields] at h
    simp [encodeFields, decodeFields]
  | .cons m v vr, eai, fts, h => by
    cases fts <;> simp [wellTypedFields] at h
    next n t tr =>
    obtain ⟨⟨hn, hv⟩, hr⟩ := h
    subst hn
    simp [encodeFields, decodeFields, decode_encode v eai t hv,
      decodeFields_encodeFields vr eai tr hr]

theorem decodeList_encodeList :
    ∀ (xs : Values) (eai : Bool) (t : Ty), wellTypedList t xs = true →
      decodeList t (encodeList eai xs) = .ok xs
  | .nil, eai, t, h => by
    simp [encodeList, decodeList]
  | .cons v vr, eai, t, h => by
    simp [wellTypedList] at h
    obtain ⟨hv, hr⟩ := h
    simp [encodeList, decodeList, decode_encode v eai t hv,
      decodeList_encodeList vr eai t hr]

theorem decodeEntries_encodeEntries :
    ∀ (es : Entries) (eai : Bool) (kt : KeyTy) (vt : Ty),
      wellTypedEntries kt vt es = true →
      decodeEntries kt vt (encodeEntries eai es) = .ok es
  | .nil, eai, kt, vt, h => by
    simp [encodeEntries, decodeEntries]
  | .cons k v er, eai, kt, vt, h => by
    simp [wellTypedEntries] at h
    obtain ⟨⟨hk, hv⟩, hr⟩ := h
    simp [encodeEntries, decodeEntries, parseKey_keyStr kt k hk,
      decode_encode v eai vt hv, decodeEntries_encodeEntries er eai kt vt hr]
end

/-! ## Registry lemmas -/

theorem registerMethods_preserves :
    ∀ (methods : List (String × MethodSig)) (mux : Mux) (allowed : List String)
      (m : Mux), registerMethods mux methods allowed = .ok m →
      ∀ x, x ∈ mux → x ∈ m := by
  intro methods
  induction methods with
  | nil =>
    intro mux allowed m hreg x hx
    simp [registerMethods] at hreg
    rwa [← hreg]
  | cons p rest ih =>
    intro mux allowed m hreg x hx
    obtain ⟨methodName, sig⟩ := p
    simp only [registerMethods] at hreg
    by_cases hallow : isAllowedMethod allowed methodName = true
    · rw [if_pos hallow] at hreg
      cases hmux : muxHandleFunc mux ("/" ++ methodName) methodName with
      | error e => rw [hmux] at hreg; exact absurd hreg (by simp)
      | ok m' =>
        rw [hmux] at hreg
        refine ih m' allowed m hreg x ?_
        unfold muxHandleFunc at hmux
        split at hmux
        · exact absurd hmux (by simp)
        · simp at hmux
          rw [← hmux]
          exact List.mem_append_left _ hx
    · rw [if_neg hallow] at hreg
      exact ih mux allowed m hreg x hx

theorem registerEndpoints_preserves :
    ∀ (endpointMap : List (String × String)) (mux : Mux) (allowed : List String)
      (m : Mux), registerEndpoints mux endpointMap allowed = .ok m →
      ∀ x, x ∈ mux → x ∈ m := by
  intro endpointMap
  induction endpointMap with
  | nil =>
    intro mux allowed m hreg x hx
    simp [registerEndpoints] at hreg
    rwa [← hreg]
  | cons p rest ih =>
    intro mux allowed m hreg x hx
    obtain ⟨endpoint, methodName⟩ := p
    simp only [registerEndpoints] at hreg
    by_cases hallow : isAllowedMethod allowed methodName = true
    · rw [if_pos hallow] at hreg
      cases hmux : muxHandleFunc mux endpoint methodName with
      | error e => rw [hmux] at hreg; exact absurd hreg (by simp)
      | ok m' =>
        rw [hmux] at hreg
        refine ih m' allowed m hreg x ?_
        unfold muxHandleFunc at hmux
        split at hmux
        · exact absurd hmux (by simp)
        · simp at hmux
          rw [← hmux]
          exact List.mem_append_left _ hx
    · rw [if_neg hallow] at hreg
      exact ih mux allowed m hreg x hx

theorem registerMethods_registers :
    ∀ (methods : List (String × MethodSig)) (mux : Mux) (allowed : List String)
      (m : Mux), registerMethods mux methods allowed = .ok m →
      ∀ methodName sig, (methodName, sig) ∈ methods →
        isAllowedMethod allowed methodName = true →
        ("/" ++ methodName, methodName) ∈ m := by
  intro methods
  induction methods with
  | nil =>
    intro mux allowed m _ methodName sig hmem
    exact absurd hmem (by simp)
  | cons p rest ih =>
    intro mux allowed m hreg methodName sig hmem hallow
    obtain ⟨n, s⟩ := p
    simp only [registerMethods] at hreg
    rcases List.mem_cons.mp hmem with hhead | htail
    · obtain ⟨hn, hs⟩ := Prod.mk.injEq .. ▸ hhead
      subst hn
      rw [if_pos hallow] at hreg
      cases hmux : muxHandleFunc mux ("/" ++ methodName) methodName with
      | error e => rw [hmux] at hreg; exact absurd hreg (by simp)
      | ok m' =>
        rw [hmux] at hreg
        refine registerMethods_preserves rest m' allowed m hreg _ ?_
        unfold muxHandleFunc at hmux
        split at hmux
        · exact absurd hmux (by simp)
        · simp at hmux
          rw [← hmux]
          exact List.mem_append_right _ (by simp)
    · by_cases hallown : isAllowedMethod allowed n = true
      · rw [if_pos hallown] at hreg
        cases hmux : muxHandleFunc mux ("/" ++ n) n with
        | error e => rw [hmux] at hreg; exact absurd hreg (by simp)
        | ok m' => rw [hmux] at hreg; exact ih m' allowed m hreg methodName sig htail hallow
      · rw [if_neg hallown] at hreg
        exact ih mux allowed m hreg methodName sig htail hallow

/-! ## The claims -/

/-- C1: for every structured-message value composed only of scalars,
nested messages, repeated fields and keyed maps (no enums in symbolic
form), decoding the result of encoding the value under a fixed, matching
codec configuration yields a value equal to the original:
decode (encode v) = v. -/
theorem C1_decode_encode_roundtrip (enumsAsInts : Bool) (t : Ty) (v : Value)
    (h : wellTyped t v = true) :
    decode t (encode enumsAsInts v) = .ok v :=
  decode_encode v enumsAsInts t h

/-- C1 witness: the round trip at a concrete message holding a scalar, a
repeated field, a nested message and an integer-keyed map. -/
theorem C1_witness :
    wellTyped sampleTy sampleVal = true ∧
    decode sampleTy (encode true sampleVal) = .ok sampleVal :=
  ⟨by decide, C1_decode_encode_roundtrip true sampleTy sampleVal (by decide)⟩

/-- C2 counterexample: a method whose signature does not match the fixed
shape is NOT excluded from the discovered endpoint set — Serve registers
it and its path resolves; the claim's exclusion fails at this input. -/
theorem C2_counterexample :
    signatureMatches badSignature = false ∧
    serveRegister [("Bad", badSignature)] [] [] = .ok [("/Bad", "Bad")] ∧
    muxLookup [("/Bad", "Bad")] "/Bad" = some "Bad" :=
  ⟨rfl, rfl, rfl⟩

/-- C2 amended: Serve performs no signature check at all: every reflected
method passing the allow-list is registered, whatever its signature, and
no error is raised at registration (invoking such an endpoint fails only
at request time). -/
theorem C2_no_signature_exclusion
    (methods : List (String × MethodSig)) (endpointMap : List (String × String))
    (allowed : List String) (m : Mux) (methodName : String) (sig : MethodSig)
    (hreg : serveRegister methods endpointMap allowed = .ok m)
    (hmem : (methodName, sig) ∈ methods)
    (hallow : isAllowedMethod allowed methodName = true) :
    ("/" ++ methodName, methodName) ∈ m := by
  unfold serveRegister at hreg
  cases h1 : registerMethods [] methods allowed with
  | error e => rw [h1] at hreg; exact absurd hreg (by simp)
  | ok m1 =>
    rw [h1] at hreg
    exact registerEndpoints_preserves endpointMap m1 allowed m hreg _
      (registerMethods_registers methods [] allowed m1 h1 methodName sig hmem hallow)

/-- C2 witness: the amended statement applied to the one-method service
whose method has a non-matching signature. -/
theorem C2_witness :
    serveRegister [("Bad", badSignature)] [] [] = .ok [("/Bad", "Bad")] ∧
    ("/Bad", "Bad") ∈ ([("/Bad", "Bad")] : Mux) :=
  ⟨rfl, C2_no_signature_exclusion [("Bad", badSignature)] [] [] [("/Bad", "Bad")]
    "Bad" badSignature rfl (by simp) rfl⟩

/-- C3 counterexample: when the discovered method Add and an explicit
endpoint-map entry claim the same path, registration does not complete
with the explicit entry winning — ServeMux.HandleFunc panics on the
duplicate pattern. -/
theorem C3_counterexample :
    serveRegister [("Add", okSignature)] [("/Add", "main.(*server).Add-fm")] [] =
      .error "http: multiple registrations for /Add" :=
  rfl

/-- C3 amended: when an auto-discovered method and an explicit
endpoint-map entry claim the same endpoint name, registration panics with
the multiplexer's duplicate-registration error; the explicit entry never
takes precedence. -/
theorem C3_duplicate_registration_panics (methodName : String) (sig : MethodSig)
    (funcName : String) :
    serveRegister [(methodName, sig)] [("/" ++ methodName, funcName)] [] =
      .error ("http: multiple registrations for " ++ ("/" ++ methodName)) := by
  simp [serveRegister, registerMethods, registerEndpoints, isAllowedMethod,
    muxHandleFunc]

/-- C4: decoding a JSON value into an enumeration-typed destination
succeeds if and only if the JSON value is a number, yielding the enum of
that integer ordinal (for ordinals in int32 range; the source converts
through int32); a symbolic JSON string is rejected with a descriptive
error. -/
theorem C4_enum_decoding :
    (∀ j : Jx, exceptIsOk (decode .tenum j) = jxIsNum j) ∧
    (∀ n : Int, -(2 ^ 31) ≤ n → n < 2 ^ 31 →
      decode .tenum (.jnum n) = .ok (.venum n)) ∧
    decode .tenum (.jnum 2) = .ok (.venum 2) ∧
    (∀ s : String, decode .tenum (.jstr s) =
      .error ("unmarshaling of symbolic enum " ++ quoteStr s ++ " not supported")) := by
  refine ⟨?_, ?_, ?_, ?_⟩
  · intro j
    cases j <;> simp [decode, exceptIsOk, jxIsNum]
  · intro n h1 h2
    simp only [decode, wrap32]
    congr 2
    omega
  · simp only [decode, wrap32]
    congr 2
  · intro s
    simp [decode]

/-- C4 witness: the numeric branch applied at the ordinal 5. -/
theorem C4_witness : decode .tenum (.jnum 5) = .ok (.venum 5) :=
  C4_enum_decoding.2.1 5 (by decide) (by decide)

/-- C6: for every inbound request on a bound endpoint, a failure to decode
the payload into the allocated request instance yields HTTP 400 whose body
is the decode error text (http.Error appends a trailing newline), and the
target method is never invoked — the response is independent of the
method.  Both the POST body path and the GET query-string path are
covered, including a failure of the query-string-to-JSON conversion. -/
theorem C6_decode_failure_yields_400 {Req Resp : Type}
    (unmarshal : String → Except String Req)
    (qsonToJSON : String → Except String String)
    (methodFunc altMethodFunc : Req → Except String Resp)
    (marshal : Resp → Except String String) (body rawQuery e : String) :
    (unmarshal body = .error e →
      grpcjHandler unmarshal qsonToJSON methodFunc marshal "POST" body rawQuery =
        httpErrorResponse e statusBadRequest ∧
      grpcjHandler unmarshal qsonToJSON methodFunc marshal "POST" body rawQuery =
        grpcjHandler unmarshal qsonToJSON altMethodFunc marshal "POST" body rawQuery) ∧
    (∀ parsedJSON, qsonToJSON rawQuery = .ok parsedJSON →
      unmarshal parsedJSON = .error e →
      grpcjHandler unmarshal qsonToJSON methodFunc marshal "GET" body rawQuery =
        httpErrorResponse e statusBadRequest ∧
      grpcjHandler unmarshal qsonToJSON methodFunc marshal "GET" body rawQuery =
        grpcjHandler unmarshal qsonToJSON altMethodFunc marshal "GET" body rawQuery) ∧
    (qsonToJSON rawQuery = .error e →
      grpcjHandler unmarshal qsonToJSON methodFunc marshal "GET" body rawQuery =
        httpErrorResponse e statusBadRequest ∧
      grpcjHandler unmarshal qsonToJSON methodFunc marshal "GET" body rawQuery =
        grpcjHandler unmarshal qsonToJSON altMethodFunc marshal "GET" body rawQuery) := by
  refine ⟨?_, ?_, ?_⟩
  · intro h
    constructor <;> simp [grpcjHandler, h]
  · intro parsedJSON hq h
    constructor <;> simp [grpcjHandler, hq, h]
  · intro hq
    constructor <;> simp [grpcjHandler, hq]

/-- C6 witness: a POST whose payload fails to decode is answered with 400
and the decode error text. -/
theorem C6_witness :
    grpcjHandler (fun _ => .error "bad payload") (fun _ => .ok "")
      (fun _ : Unit => .ok ()) (fun _ : Unit => .ok "null") "POST" "x" "" =
      httpErrorResponse "bad payload" statusBadRequest :=
  ((C6_decode_failure_yields_400 (fun _ => .error "bad payload") (fun _ => .ok "")
    (fun _ : Unit => .ok ()) (fun _ : Unit => .ok ()) (fun _ : Unit => .ok "null")
    "x" "" "bad payload").1 rfl).1

/-- C7: the composed middleware chain invokes the first-declared
middleware first on each request: Serve reverses the declared list and
folds it over the handler, so the head of the declared list becomes the
outermost wrapper, and in the trace model the recorded order equals
declaration order. -/
theorem C7_middleware_order :
    (∀ {H : Type} (handler : H) (m : H → H) (ms : List (H → H)),
      composeMiddleware handler (m :: ms) = m (composeMiddleware handler ms)) ∧
    (∀ (tags : List Nat) (log : List Nat),
      composeMiddleware traceBase (tags.map traceMw) log = log ++ tags ++ [0]) := by
  have hcons : ∀ {H : Type} (handler : H) (m : H → H) (ms : List (H → H)),
      composeMiddleware handler (m :: ms) = m (composeMiddleware handler ms) := by
    intro H handler m ms
    simp [composeMiddleware, applyMiddlewareTo, List.foldl_append]
  refine ⟨hcons, ?_⟩
  intro tags
  induction tags with
  | nil =>
    intro log
    simp [composeMiddleware, applyMiddlewareTo, traceBase]
  | cons t ts ih =>
    intro log
    rw [List.map_cons, hcons, traceMw, ih (log ++ [t])]
    simp

/-- C8: an empty allow-list permits every method; the allow-list
containing only Add applied to a service exposing Add and Subtract
registers only /Add, and /Subtract resolves to no route (the multiplexer
not-found outcome). -/
theorem C8_allow_list :
    (∀ methodName : String, isAllowedMethod [] methodName = true) ∧
    serveRegister [("Add", okSignature), ("Subtract", okSignature)] [] ["Add"] =
      .ok [("/Add", "Add")] ∧
    muxLookup [("/Add", "Add")] "/Add" = some "Add" ∧
    muxLookup [("/Add", "Add")] "/Subtract" = none := by
  refine ⟨?_, rfl, rfl, rfl⟩
  intro methodName
  simp [isAllowedMethod]

/-- C9: the health endpoint answers 200 with no body before any probe has
run (the initial status), 500 with no body whenever the most recent probe
returned an error, and a later successful probe restores 200. -/
theorem C9_health_endpoint :
    healthcheckHandler (healthcheckStatusAfter []) = ⟨statusOK, ""⟩ ∧
    (∀ (probeResults : List (Option String)) (e : String),
      healthcheckHandler (healthcheckStatusAfter (probeResults ++ [some e])) =
        ⟨statusInternalServerError, ""⟩) ∧
    (∀ probeResults : List (Option String),
      healthcheckHandler (healthcheckStatusAfter (probeResults ++ [none])) =
        ⟨statusOK, ""⟩) := by
  refine ⟨rfl, ?_, ?_⟩
  · intro probeResults e
    simp [healthcheckStatusAfter, List.foldl_append, healthcheckStep, healthcheckHandler]
  · intro probeResults
    simp [healthcheckStatusAfter, List.foldl_append, healthcheckStep, healthcheckHandler]

/-- C10: the handler produced by BasicAuth invokes the wrapped handler
exactly when the request carries basic-auth credentials equal to the
configured pair (handing it the writer with WWW-Authenticate already
set); otherwise it answers 401 Unauthorized without consulting the
wrapped handler (the response is the same whatever handler was wrapped),
and the WWW-Authenticate header is set on every response. -/
theorem C10_basic_auth (username password : String) (r : AuthRequest)
    (w : ResponseWriter) :
    (∀ next : AuthHandler, r.basicAuth = some (username, password) →
      basicAuth username password next r w =
        next r (headerSet w wwwAuthenticate.1 wwwAuthenticate.2)) ∧
    (∀ next : AuthHandler, r.basicAuth ≠ some (username, password) →
      basicAuth username password next r w =
        httpErrorWrite (headerSet w wwwAuthenticate.1 wwwAuthenticate.2)
          "Unauthorized" statusUnauthorized ∧
      (basicAuth username password next r w).status = statusUnauthorized) ∧
    hasHeader (headerSet w wwwAuthenticate.1 wwwAuthenticate.2)
      wwwAuthenticate.1 wwwAuthenticate.2 = true ∧
    hasHeader (httpErrorWrite (headerSet w wwwAuthenticate.1 wwwAuthenticate.2)
      "Unauthorized" statusUnauthorized) wwwAuthenticate.1 wwwAuthenticate.2 = true := by
  refine ⟨?_, ?_, ?_, ?_⟩
  · intro next h
    simp [basicAuth, h]
  · intro next h
    cases hr : r.basicAuth with
    | none =>
      constructor
      · simp [basicAuth, hr]
      · simp [basicAuth, hr, httpErrorWrite, statusUnauthorized]
    | some pair =>
      obtain ⟨a, b⟩ := pair
      have hne : a ≠ username ∨ b ≠ password := by
        by_contra hc
        push_neg at hc
        exact h (by rw [hr, hc.1, hc.2])
      have hcond : (a != username || b != password) = true := by
        rcases hne with h1 | h1 <;> simp [h1]
      constructor
      · simp [basicAuth, hr, hcond]
      · simp [basicAuth, hr, hcond, httpErrorWrite, statusUnauthorized]
  · simp [hasHeader, headerSet]
  · simp [hasHeader, httpErrorWrite, headerSet, wwwAuthenticate]

/-- C10 witness: matching credentials reach the wrapped handler with the
WWW-Authenticate header set. -/
theorem C10_witness :
    basicAuth "user" "pass" (fun _ w => w) ⟨some ("user", "pass")⟩ ⟨[], 200, ""⟩ =
      headerSet ⟨[], 200, ""⟩ wwwAuthenticate.1 wwwAuthenticate.2 :=
  (C10_basic_auth "user" "pass" ⟨some ("user", "pass")⟩ ⟨[], 200, ""⟩).1
    (fun _ w => w) rfl

end GrpcJson
